import Mathlib

/-!
Verification development for the prognostics-model core
(`prog_models/prognostics_model.py`): a shallow embedding of the model
contract (`PrognosticsModel`), the simulation driver
(`simulate_to_threshold`, `simulate_to`), the dynamic model factory
(`generate_model`) and the constructor (`PrognosticsModel.__init__`),
together with theorems settling the specification claims about them.

Embedding conventions:
* Python numbers are embedded as rationals (`ℚ`).
* Python dicts keyed by identifier strings are embedded as association
  lists in insertion order.
* Fallible operations return `Except`; each `raise` site becomes an
  `.error` constructor.
* The `while` loop of `simulate_to_threshold` is run on explicit fuel;
  the fuel `simFuel` is always sufficient for the loop to reach its real
  exit condition (proved below), so the fuel never truncates a run.
-/

/-- A Python dict mapping identifier strings to numbers (insertion order). -/
abbrev PDict := List (String × ℚ)

set_option maxRecDepth 100000

namespace ProgModels

/-- The model contract of `PrognosticsModel`: the four key sets and the five
equations.  The `initialize` method is called `initialize_eqn` here (the
name the factory `generate_model` uses for the same function in the source). -/
structure Model where
  inputs : List String
  states : List String
  outputs : List String
  events : List String
  initialize_eqn : PDict → PDict → PDict
  next_state : ℚ → PDict → PDict → ℚ → PDict
  output : ℚ → PDict → PDict
  event_state : ℚ → PDict → PDict
  threshold_met : ℚ → PDict → List (String × Bool)

/-- The default `threshold_met` method of `PrognosticsModel`:
`{key: event_state < 0 for (key, event_state) in self.event_state(t, x).items()}`. -/
def defaultThresholdMet (es : ℚ → PDict → PDict) : ℚ → PDict → List (String × Bool) :=
  fun t x => (es t x).map (fun p => (p.1, decide (p.2 < 0)))

/-- The `options` dict passed to the simulation driver: each recognized key
is either present (`some`) or absent (`none`). -/
structure SimOptions where
  dt : Option ℚ := none
  save_freq : Option ℚ := none
  horizon : Option ℚ := none
  threshold_eqn : Option (ℚ → PDict → List (String × Bool)) := none
  x : Option PDict := none

/-- `config['dt']` after `config.update(options)` over the default `1.0`. -/
def mergedDt (o : SimOptions) : ℚ := o.dt.getD 1

/-- `config['save_freq']` after the update over the default `10`. -/
def mergedSaveFreq (o : SimOptions) : ℚ := o.save_freq.getD 10

/-- `config['horizon']` after the update over the default `1e100`. -/
def mergedHorizon (o : SimOptions) : ℚ := o.horizon.getD ((10 : ℚ) ^ 100)

/-- The `ProgModelInputException` raise sites of the simulation driver. -/
inductive SimError where
  | missingOutputKeys
  | badThresholdKeys
  | dtNotPositive
  | saveFreqNotPositive
  | timeNotPositive
  deriving DecidableEq

/-- The five time-aligned history sequences returned by the driver. -/
structure SimResult where
  times : List ℚ
  inputs : List PDict
  states : List PDict
  outputs : List PDict
  event_states : List PDict
  deriving DecidableEq

/-- Decidable equality of driver results (used only to evaluate the
embedding on concrete runs). -/
instance {ε α : Type} [DecidableEq ε] [DecidableEq α] : DecidableEq (Except ε α) :=
  fun a b =>
    match a, b with
    | .error e1, .error e2 =>
        match decEq e1 e2 with
        | isTrue h => isTrue (by rw [h])
        | isFalse h => isFalse (fun hc => h (by injection hc))
    | .error _, .ok _ => isFalse (fun hc => Except.noConfusion hc)
    | .ok _, .error _ => isFalse (fun hc => Except.noConfusion hc)
    | .ok a1, .ok a2 =>
        match decEq a1 a2 with
        | isTrue h => isTrue (by rw [h])
        | isFalse h => isFalse (fun hc => h (by injection hc))

/-- The mutable locals of the `while` loop of `simulate_to_threshold`. -/
structure LoopState where
  t : ℚ
  u : PDict
  x : PDict
  res : SimResult
  next_save : ℚ
  threshold_met : Bool

/-- The loop-invariant data of one `simulate_to_threshold` call: the model,
the loading function, the merged configuration, the resolved threshold
equation and the compiled `check_thresholds` closure. -/
structure SimCtx where
  m : Model
  future_loading_eqn : ℚ → PDict
  dt : ℚ
  save_freq : ℚ
  horizon : ℚ
  threshold_met_eqn : ℚ → PDict → List (String × Bool)
  check_thresholds : List (String × Bool) → Bool

/-- Python truthiness of the optional `threshold_keys` argument
(`None` and the empty list are falsy). -/
def listTruthy : Option (List String) → Bool
  | none => false
  | some l => !l.isEmpty

/-- The `check_thresholds` closure of `simulate_to_threshold`: with falsy
`threshold_keys` it is `any(thresholds_met.values())`, otherwise
`any([thresholds_met[key] for key in threshold_keys])`.  A lookup miss
(Python `KeyError`, precluded by validation plus the model contract) is
read as `False`. -/
def checkThresholds (threshold_keys : Option (List String))
    (tm : List (String × Bool)) : Bool :=
  if listTruthy threshold_keys then
    (threshold_keys.getD []).any (fun key => (tm.lookup key).getD false)
  else
    tm.any (fun p => p.2)

/-- Append one sample `(t, u, x, output(t, x), event_state(t, x))` to the
history (the body of both the in-loop save and the final save). -/
def pushPoint (m : Model) (r : SimResult) (t : ℚ) (u x : PDict) : SimResult :=
  { times := r.times ++ [t]
    inputs := r.inputs ++ [u]
    states := r.states ++ [x]
    outputs := r.outputs ++ [m.output t x]
    event_states := r.event_states ++ [m.event_state t x] }

/-- One iteration of the loop body: advance `t`, compute the input, advance
the state, evaluate the thresholds, and record a sample when `t` has
reached the next save instant (advancing `next_save` by `save_freq`). -/
def simStep (c : SimCtx) (st : LoopState) : LoopState :=
  let t := st.t + c.dt
  let u := c.future_loading_eqn t
  let x := c.m.next_state t st.x u c.dt
  let tm := c.check_thresholds (c.threshold_met_eqn t x)
  if st.next_save ≤ t then
    { t := t, u := u, x := x, res := pushPoint c.m st.res t u x
      next_save := st.next_save + c.save_freq, threshold_met := tm }
  else
    { t := t, u := u, x := x, res := st.res
      next_save := st.next_save, threshold_met := tm }

/-- The `while not threshold_met and t < horizon` loop, on explicit fuel. -/
def simLoop (c : SimCtx) : Nat → LoopState → LoopState
  | 0, st => st
  | fuel + 1, st =>
    if st.threshold_met = false ∧ st.t < c.horizon then
      simLoop c fuel (simStep c st)
    else st

/-- Fuel bound for the loop: it is entered only while `t < horizon`, each
iteration advances `t` by `dt`, and `t` starts at `0`, so
`⌈horizon / dt⌉ + 1` iterations always reach the exit condition. -/
def simFuel (horizon dt : ℚ) : Nat := (Int.ceil (horizon / dt)).toNat + 1

/-- The per-run context assembled during setup: merged configuration, the
resolved threshold equation (`config['threshold_eqn']` if present, else the
model's own `threshold_met`) and the `check_thresholds` closure. -/
def mkCtx (m : Model) (fle : ℚ → PDict) (opts : SimOptions)
    (threshold_keys : Option (List String)) : SimCtx :=
  { m := m, future_loading_eqn := fle
    dt := mergedDt opts, save_freq := mergedSaveFreq opts
    horizon := mergedHorizon opts
    threshold_met_eqn := opts.threshold_eqn.getD m.threshold_met
    check_thresholds := checkThresholds threshold_keys }

/-- Setup phase of `simulate_to_threshold`: `t = 0`, `u = future_loading_eqn(0)`,
`x` from `config['x']` if present else `initialize(u, first_output)`, and a
history holding the unconditional first sample; `next_save = save_freq`. -/
def initState (m : Model) (fle : ℚ → PDict) (first_output : PDict)
    (opts : SimOptions) : LoopState :=
  let u := fle 0
  let x := opts.x.getD (m.initialize_eqn u first_output)
  { t := 0, u := u, x := x
    res := { times := [0], inputs := [u], states := [x]
             outputs := [m.output 0 x], event_states := [m.event_state 0 x] }
    next_save := mergedSaveFreq opts, threshold_met := false }

/-- Finalize phase: append one more point for the final `t` unless the last
recorded timestamp already equals `t`. -/
def finalizeRes (m : Model) (st : LoopState) : SimResult :=
  if st.res.times.getLast? = some st.t then st.res
  else pushPoint m st.res st.t st.u st.x

/-- Everything in `simulate_to_threshold` after validation:
setup, stepping, finalize. -/
def runSim (m : Model) (fle : ℚ → PDict) (first_output : PDict)
    (opts : SimOptions) (threshold_keys : Option (List String)) : SimResult :=
  let c := mkCtx m fle opts threshold_keys
  finalizeRes m (simLoop c (simFuel c.horizon c.dt) (initState m fle first_output opts))

/-- `PrognosticsModel.simulate_to_threshold`.  The check that
`future_loading_eqn` is callable is vacuous here (it is a typed function),
as are the checks that `dt` and `save_freq` are numbers (they are typed
rationals); the remaining validations are embedded in source order. -/
def simulate_to_threshold (m : Model) (fle : ℚ → PDict) (first_output : PDict)
    (opts : SimOptions) (threshold_keys : Option (List String)) :
    Except SimError SimResult :=
  if ¬ (m.outputs.all fun key => (first_output.lookup key).isSome) then
    .error .missingOutputKeys
  else if listTruthy threshold_keys ∧
      ¬ ((threshold_keys.getD []).all fun key => m.events.contains key) then
    .error .badThresholdKeys
  else if mergedDt opts ≤ 0 then .error .dtNotPositive
  else if mergedSaveFreq opts ≤ 0 then .error .saveFreqNotPositive
  else .ok (runSim m fle first_output opts threshold_keys)

/-- The config dict built by `simulate_to`: the defaults
`{'dt': 1, 'save_freq': 10, 'threshold_eqn': lambda t,x: {'a': False},
'horizon': time}` updated with the caller's `options` — so caller-supplied
keys, including `horizon` and `threshold_eqn`, override the wrapper's
settings. -/
def simulate_to_options (time : ℚ) (opts : SimOptions) : SimOptions :=
  { dt := some (opts.dt.getD 1)
    save_freq := some (opts.save_freq.getD 10)
    threshold_eqn := some (opts.threshold_eqn.getD (fun _ _ => [("a", false)]))
    horizon := some (opts.horizon.getD time)
    x := opts.x }

/-- `PrognosticsModel.simulate_to`: validate `time > 0` (the check that
`time` is a number is vacuous here), build the config, validate `dt` and
`save_freq`, and delegate to `simulate_to_threshold` with no
`threshold_keys`. -/
def simulate_to (m : Model) (time : ℚ) (fle : ℚ → PDict) (first_output : PDict)
    (opts : SimOptions) : Except SimError SimResult :=
  if time ≤ 0 then .error .timeNotPositive
  else if mergedDt (simulate_to_options time opts) ≤ 0 then .error .dtNotPositive
  else if mergedSaveFreq (simulate_to_options time opts) ≤ 0 then
    .error .saveFreqNotPositive
  else simulate_to_threshold m fle first_output (simulate_to_options time opts) none

/-- `k` explicit calls of `next_state`, advancing the clock by `dt` from `t`
and drawing the input at each step from the loading function: the reference
iteration that claim C6 compares the driver against. -/
def nextIter (m : Model) (fle : ℚ → PDict) (dt : ℚ) : Nat → ℚ → PDict → PDict
  | 0, _, x => x
  | k + 1, t, x => nextIter m fle dt k (t + dt) (m.next_state (t + dt) x (fle (t + dt)) dt)

/-- The `times` field of an `ok` driver result. -/
def okTimes : Except SimError SimResult → Option (List ℚ)
  | .ok r => some r.times
  | .error _ => none

/-- The final recorded timestamp of an `ok` driver result. -/
def okLastTime : Except SimError SimResult → Option ℚ
  | .ok r => r.times.getLast?
  | .error _ => none

/-- The final recorded state of an `ok` driver result. -/
def okLastState : Except SimError SimResult → Option PDict
  | .ok r => r.states.getLast?
  | .error _ => none

/-- A value held in the `parameters` dict: a number, or a per-state mapping
(as produced by the `process_noise` broadcast). -/
inductive PVal where
  | num (q : ℚ)
  | dmap (m : PDict)
  deriving DecidableEq

/-- The content of a `parameters` dict. -/
abbrev Params := List (String × PVal)

/-- Python `d[k] = v`: overwrite in place when the key exists, else append. -/
def dictSetItem (d : Params) (k : String) (v : PVal) : Params :=
  if (d.lookup k).isSome then d.map (fun p => if p.1 = k then (k, v) else p)
  else d ++ [(k, v)]

/-- Python `d.update(opts)`, item by item in `opts` order. -/
def dictUpdate (d opts : Params) : Params :=
  opts.foldl (fun acc p => dictSetItem acc p.1 p.2) d

/-- The class-level `inputs`/`states`/`outputs` attributes of a
`PrognosticsModel` subclass (`none` models an absent attribute, i.e. a
failing `hasattr` check). -/
structure ClassAttrs where
  inputs : Option (List String) := none
  states : Option (List String) := none
  outputs : Option (List String) := none

/-- The `ProgModelTypeError` raise sites of `PrognosticsModel.__init__`. -/
inductive CtorError where
  | missingProcessNoise
  | missingInputs
  | emptyInputs
  | missingStates
  | emptyStates
  | missingOutputs
  | emptyOutputs
  deriving DecidableEq

/-- `PrognosticsModel.__init__`.  Aliasing fact taken from the source:
`parameters = {}` is a CLASS attribute of `PrognosticsModel`, so
`self.parameters` resolves to that one dict object for every instance of
every subclass, and both `self.parameters.update(options)` and
`self.parameters['process_noise'] = ...` mutate it in place (no instance
attribute is ever created).  The shared dict is therefore threaded
explicitly: `shared` is its content when the constructor starts, the `.ok`
payload is its content when the constructor returns, and each live
instance's `.parameters` denotes the dict's current content. -/
def model_init (attrs : ClassAttrs) (shared options : Params) :
    Except CtorError Params :=
  if ((dictUpdate shared options).lookup "process_noise").isNone then
    .error .missingProcessNoise
  else if attrs.inputs.isNone then .error .missingInputs
  else if (attrs.inputs.getD []).length ≤ 0 then .error .emptyInputs
  else if attrs.states.isNone then .error .missingStates
  else if (attrs.states.getD []).length ≤ 0 then .error .emptyStates
  else if attrs.outputs.isNone then .error .missingOutputs
  else if (attrs.outputs.getD []).length ≤ 0 then .error .emptyOutputs
  else
    match (dictUpdate shared options).lookup "process_noise" with
    | some (PVal.num q) =>
        .ok (dictSetItem (dictUpdate shared options) "process_noise"
          (PVal.dmap ((attrs.states.getD []).map (fun key => (key, q)))))
    | _ => .ok (dictUpdate shared options)

/-- The `keys` argument of `generate_model` (`none` = key absent). -/
structure ModelKeys where
  inputs : Option (List String) := none
  states : Option (List String) := none
  outputs : Option (List String) := none
  events : Option (List String) := none

/-- The `ProgModelTypeError` raise sites of `generate_model` (the five
callability checks are vacuous here: every equation is a typed function). -/
inductive GenError where
  | keysMissingInputs
  | keysMissingStates
  | keysMissingOutputs
  | ctor (e : CtorError)
  deriving DecidableEq

/-- `PrognosticsModel.generate_model`: validate the key lists, run the
constructor of the fresh `NewProgModel` subclass (over an empty shared
parameters dict), then attach the supplied equations; `event_state` and
`threshold_met` fall back to the inherited defaults when not supplied. -/
def generate_model (keys : ModelKeys)
    (initialize_eqn : PDict → PDict → PDict)
    (next_state_eqn : ℚ → PDict → PDict → ℚ → PDict)
    (output_eqn : ℚ → PDict → PDict)
    (event_state_eqn : Option (ℚ → PDict → PDict))
    (threshold_eqn : Option (ℚ → PDict → List (String × Bool)))
    (config : Params) : Except GenError Model :=
  if keys.inputs.isNone then .error .keysMissingInputs
  else if keys.states.isNone then .error .keysMissingStates
  else if keys.outputs.isNone then .error .keysMissingOutputs
  else
    match model_init
        { inputs := keys.inputs, states := keys.states, outputs := keys.outputs }
        [] config with
    | .error e => .error (.ctor e)
    | .ok _ =>
        let es := event_state_eqn.getD (fun _ _ => [])
        .ok { inputs := keys.inputs.getD [], states := keys.states.getD []
              outputs := keys.outputs.getD [], events := keys.events.getD []
              initialize_eqn := initialize_eqn, next_state := next_state_eqn
              output := output_eqn, event_state := es
              threshold_met := threshold_eqn.getD (defaultThresholdMet es) }

/-- A statically declared `PrognosticsModel` subclass wrapping three
equations: it declares the key sets, defines `initialize`, `next_state`
and `output`, and inherits the default `event_state` (empty dict) and the
default `threshold_met`. -/
def staticModel (ins sts outs : List String)
    (f_init : PDict → PDict → PDict)
    (f_next : ℚ → PDict → PDict → ℚ → PDict)
    (f_out : ℚ → PDict → PDict) : Model :=
  { inputs := ins, states := sts, outputs := outs, events := []
    initialize_eqn := f_init, next_state := f_next, output := f_out
    event_state := fun _ _ => []
    threshold_met := defaultThresholdMet (fun _ _ => []) }

/-! ### Concrete instances used by individual claims -/

/-- Event-state equation of the spec's concrete scenario (claim C1):
`event_state(t, x) = 1 - x['pos']/100`, under event name `impact`. -/
def c1EventState : ℚ → PDict → PDict :=
  fun _ x => [("impact", 1 - ((x.lookup "pos").getD 0) / 100)]

/-- The linear model of the spec's concrete scenario:
`next_state(t,x,u,dt) = x + dt*u['rate']`, `output(t,x) = x`,
`event_state(t,x) = 1 - x['pos']/100`, default threshold. -/
def c1Model : Model :=
  { inputs := ["rate"], states := ["pos"], outputs := ["pos"], events := ["impact"]
    initialize_eqn := fun _ z => z
    next_state := fun _ x u dt =>
      [("pos", ((x.lookup "pos").getD 0) + dt * ((u.lookup "rate").getD 0))]
    output := fun _ x => x
    event_state := c1EventState
    threshold_met := defaultThresholdMet c1EventState }

/-- Constant loading `u = {'rate': 5}`. -/
def c1Load : ℚ → PDict := fun _ => [("rate", 5)]

/-- First output of the C1 scenario. -/
def c1FirstOutput : PDict := [("pos", 0)]

/-- C1 configuration: `dt = 1`, `save_freq = 5`, starting state
`x = {'pos': 0}` (all other options left at their defaults). -/
def c1Options : SimOptions :=
  { dt := some 1, save_freq := some 5, x := some [("pos", 0)] }

/-- Two-event event-state equation for claim C3: event `A` goes negative
first at `t = 6`, event `B` first at `t = 3`. -/
def c3EventState : ℚ → PDict → PDict :=
  fun t _ => [("A", 11 / 2 - t), ("B", 5 / 2 - t)]

/-- A model with two declared events `A` and `B` where `B` trips before `A`
(claim C3). -/
def c3Model : Model :=
  { inputs := ["u1"], states := ["s1"], outputs := ["s1"], events := ["A", "B"]
    initialize_eqn := fun _ z => z
    next_state := fun _ x _ _ => x
    output := fun _ x => x
    event_state := c3EventState
    threshold_met := defaultThresholdMet c3EventState }

/-- Loading function for the C3 runs. -/
def c3Load : ℚ → PDict := fun _ => [("u1", 0)]

/-- First output of the C3 runs. -/
def c3FirstOutput : PDict := [("s1", 0)]

/-- C3 configuration: `dt = 1`, a save frequency larger than the run. -/
def c3Options : SimOptions := { dt := some 1, save_freq := some 100 }

/-- A minimal event-free model used by witnesses and the C4 counterexample. -/
def mTriv : Model :=
  { inputs := ["u1"], states := ["s1"], outputs := ["z1"], events := []
    initialize_eqn := fun _ _ => [("s1", 0)]
    next_state := fun _ x _ _ => x
    output := fun _ _ => [("z1", 0)]
    event_state := fun _ _ => []
    threshold_met := defaultThresholdMet (fun _ _ => []) }

/-- Loading function for the `mTriv` runs. -/
def mTrivLoad : ℚ → PDict := fun _ => [("u1", 0)]

/-- First output for the `mTriv` runs. -/
def mTrivFirstOutput : PDict := [("z1", 0)]

/-- Loop invariant of the stepping phase, relating the history to the loop
locals: the first sample sits at `t = 0`, timestamps strictly increase and
never run ahead of the clock, the five sequences stay aligned, and whenever
the last recorded timestamp is the current `t`, the last recorded state is
the current `x`. -/
def Inv (st : LoopState) : Prop :=
  st.res.times.head? = some 0 ∧
  List.Chain' (· < ·) st.res.times ∧
  (∀ a ∈ st.res.times, a ≤ st.t) ∧
  st.res.inputs.length = st.res.times.length ∧
  st.res.states.length = st.res.times.length ∧
  st.res.outputs.length = st.res.times.length ∧
  st.res.event_states.length = st.res.times.length ∧
  (st.res.times.getLast? = some st.t → st.res.states.getLast? = some st.x)

/-- Options of the C2 witness run: `dt = 1`, `save_freq = 1`, `horizon = 3`. -/
def c2wOptions : SimOptions := { dt := some 1, save_freq := some 1, horizon := some 3 }

/-- The history produced by the C2 witness run of `mTriv`. -/
def c2wResult : SimResult :=
  { times := [0, 1, 2, 3]
    inputs := [[("u1", 0)], [("u1", 0)], [("u1", 0)], [("u1", 0)]]
    states := [[("s1", 0)], [("s1", 0)], [("s1", 0)], [("s1", 0)]]
    outputs := [[("z1", 0)], [("z1", 0)], [("z1", 0)], [("z1", 0)]]
    event_states := [[], [], [], []] }

/-- The history produced by the C4 witness run of `mTriv`
(`time = 3`, `dt = 1`, default save frequency `10`). -/
def c4wResult : SimResult :=
  { times := [0, 3]
    inputs := [[("u1", 0)], [("u1", 0)]]
    states := [[("s1", 0)], [("s1", 0)]]
    outputs := [[("z1", 0)], [("z1", 0)]]
    event_states := [[], []] }

/-- Class attributes of the two-instance scenario of claim C8. -/
def c8Attrs : ClassAttrs :=
  { inputs := some ["u1"], states := some ["s1"], outputs := some ["z1"] }

/-- Content of the shared `parameters` dict after constructing the first
instance with options `{'process_noise': 1}` (the scalar has been broadcast
to a per-state mapping). -/
def c8P1 : Params := [("process_noise", PVal.dmap [("s1", 1)])]

/-- Content of the shared `parameters` dict after then constructing a second
instance with options `{'a': 5}`. -/
def c8P2 : Params :=
  [("process_noise", PVal.dmap [("s1", 1)]), ("a", PVal.num 5)]

/-! ### Lemmas about the loop body and the loop -/

theorem head?_append_left {α : Type} {l : List α} {a b : α}
    (h : l.head? = some a) : (l ++ [b]).head? = some a := by
  cases l <;> simp_all

theorem simStep_t (c : SimCtx) (st : LoopState) :
    (simStep c st).t = st.t + c.dt := by
  simp only [simStep]
  split <;> rfl

theorem simStep_x (c : SimCtx) (st : LoopState) :
    (simStep c st).x =
      c.m.next_state (st.t + c.dt) st.x (c.future_loading_eqn (st.t + c.dt)) c.dt := by
  simp only [simStep]
  split <;> rfl

theorem simStep_threshold_met (c : SimCtx) (st : LoopState) :
    (simStep c st).threshold_met =
      c.check_thresholds (c.threshold_met_eqn (st.t + c.dt)
        (c.m.next_state (st.t + c.dt) st.x (c.future_loading_eqn (st.t + c.dt)) c.dt)) := by
  simp only [simStep]
  split <;> rfl

theorem inv_simStep (c : SimCtx) (hdt : 0 < c.dt) (st : LoopState)
    (h : Inv st) : Inv (simStep c st) := by
  obtain ⟨h0, hch, hle, hl1, hl2, hl3, hl4, hlast⟩ := h
  have hlt : ∀ a ∈ st.res.times, a < st.t + c.dt := by
    intro a ha
    exact lt_of_le_of_lt (hle a ha) (by linarith)
  simp only [simStep]
  split
  · -- save branch: every sequence gains the new sample
    dsimp only [pushPoint, Inv]
    refine ⟨head?_append_left h0, ?_, ?_, ?_, ?_, ?_, ?_, ?_⟩
    · rw [List.chain'_append]
      refine ⟨hch, List.chain'_singleton _, ?_⟩
      intro a ha b hb
      simp only [List.head?_cons, Option.mem_def, Option.some.injEq] at hb
      subst hb
      rw [Option.mem_def] at ha
      exact hlt a (List.mem_of_getLast?_eq_some ha)
    · intro a ha
      rcases List.mem_append.1 ha with ha | ha
      · exact le_of_lt (hlt a ha)
      · simp only [List.mem_singleton] at ha
        subst ha
        exact le_refl _
    · simp [hl1]
    · simp [hl2]
    · simp [hl3]
    · simp [hl4]
    · intro _
      simp
  · -- no-save branch: history unchanged, clock advances
    dsimp only [Inv]
    refine ⟨h0, hch, ?_, hl1, hl2, hl3, hl4, ?_⟩
    · intro a ha
      exact le_of_lt (hlt a ha)
    · intro hcontra
      have := hlt _ (List.mem_of_getLast?_eq_some hcontra)
      exact absurd this (lt_irrefl _)

theorem simLoop_inv (c : SimCtx) (hdt : 0 < c.dt) :
    ∀ (f : Nat) (st : LoopState), Inv st → Inv (simLoop c f st) := by
  intro f
  induction f with
  | zero => intro st h; exact h
  | succ f ih =>
      intro st h
      simp only [simLoop]
      split
      · exact ih _ (inv_simStep c hdt st h)
      · exact h

theorem simLoop_t_le (c : SimCtx) (hdt : 0 < c.dt) :
    ∀ (f : Nat) (st : LoopState), st.t ≤ c.horizon + c.dt →
      (simLoop c f st).t ≤ c.horizon + c.dt := by
  intro f
  induction f with
  | zero => intro st h; exact h
  | succ f ih =>
      intro st h
      simp only [simLoop]
      split
      · rename_i hcond
        refine ih _ ?_
        rw [simStep_t]
        linarith [hcond.2]
      · exact h

theorem simLoop_exit (c : SimCtx) :
    ∀ (f : Nat) (st : LoopState), c.horizon ≤ st.t + f * c.dt →
      (simLoop c f st).threshold_met = true ∨ c.horizon ≤ (simLoop c f st).t := by
  intro f
  induction f with
  | zero =>
      intro st h
      simp only [simLoop]
      right
      simpa using h
  | succ f ih =>
      intro st h
      simp only [simLoop]
      split
      · rename_i hcond
        refine ih _ ?_
        rw [simStep_t]
        have : (f + 1 : ℚ) * c.dt = c.dt + f * c.dt := by ring
        push_cast at h ⊢
        linarith
      · rename_i hcond
        rcases Decidable.em (st.threshold_met = false) with htm | htm
        · right
          by_contra hlt
          exact hcond ⟨htm, lt_of_not_le hlt⟩
        · left
          simpa using htm

theorem simLoop_tm_false (c : SimCtx)
    (H : ∀ t x, c.check_thresholds (c.threshold_met_eqn t x) = false) :
    ∀ (f : Nat) (st : LoopState), st.threshold_met = false →
      (simLoop c f st).threshold_met = false := by
  intro f
  induction f with
  | zero => intro st h; exact h
  | succ f ih =>
      intro st h
      simp only [simLoop]
      split
      · refine ih _ ?_
        rw [simStep_threshold_met]
        exact H _ _
      · exact h

theorem simStep_iterate (c : SimCtx) :
    ∀ (k : Nat) (st : LoopState),
      ((simStep c)^[k] st).t = st.t + k * c.dt ∧
      ((simStep c)^[k] st).x = nextIter c.m c.future_loading_eqn c.dt k st.t st.x := by
  intro k
  induction k with
  | zero => intro st; simp [nextIter]
  | succ k ih =>
      intro st
      rw [Function.iterate_succ_apply]
      obtain ⟨iht, ihx⟩ := ih (simStep c st)
      constructor
      · rw [iht, simStep_t]
        push_cast
        ring
      · rw [ihx, simStep_t, simStep_x, nextIter]

theorem simLoop_eq_iterate (c : SimCtx) (hdt : 0 < c.dt)
    (H : ∀ t x, c.check_thresholds (c.threshold_met_eqn t x) = false) :
    ∀ (f : Nat) (st : LoopState), st.threshold_met = false →
      c.horizon ≤ st.t + f * c.dt →
      simLoop c f st = (simStep c)^[(Int.ceil ((c.horizon - st.t) / c.dt)).toNat] st := by
  intro f
  induction f with
  | zero =>
      intro st htm h
      simp only [Nat.cast_zero, zero_mul, add_zero] at h
      have hc : Int.ceil ((c.horizon - st.t) / c.dt) ≤ 0 := by
        rw [Int.ceil_le]
        push_cast
        apply div_nonpos_of_nonpos_of_nonneg <;> linarith
      rw [Int.toNat_of_nonpos hc]
      rfl
  | succ f ih =>
      intro st htm h
      simp only [simLoop]
      split
      · rename_i hcond
        have hstep_tm : (simStep c st).threshold_met = false := by
          rw [simStep_threshold_met]; exact H _ _
        have hstep_h : c.horizon ≤ (simStep c st).t + f * c.dt := by
          rw [simStep_t]
          push_cast at h ⊢
          linarith
        rw [ih (simStep c st) hstep_tm hstep_h]
        have hpos : (0 : ℚ) < (c.horizon - st.t) / c.dt :=
          div_pos (by linarith [hcond.2]) hdt
        have hceil : 0 < Int.ceil ((c.horizon - st.t) / c.dt) := Int.ceil_pos.2 hpos
        have harg : (c.horizon - (simStep c st).t) / c.dt
            = (c.horizon - st.t) / c.dt - 1 := by
          rw [simStep_t]
          field_simp
          ring
        rw [harg, Int.ceil_sub_one]
        have htn : (Int.ceil ((c.horizon - st.t) / c.dt) - 1).toNat + 1
            = (Int.ceil ((c.horizon - st.t) / c.dt)).toNat := by omega
        rw [← htn, Function.iterate_succ_apply]
      · rename_i hcond
        have hge : c.horizon ≤ st.t := by
          by_contra hlt
          exact hcond ⟨htm, lt_of_not_le hlt⟩
        have hc : Int.ceil ((c.horizon - st.t) / c.dt) ≤ 0 := by
          rw [Int.ceil_le]
          push_cast
          apply div_nonpos_of_nonpos_of_nonneg <;> linarith
        rw [Int.toNat_of_nonpos hc]
        rfl

theorem finalizeRes_props (m : Model) (st : LoopState) (h : Inv st) :
    (finalizeRes m st).times.head? = some 0 ∧
    List.Chain' (· < ·) (finalizeRes m st).times ∧
    (∀ a ∈ (finalizeRes m st).times, a ≤ st.t) ∧
    (finalizeRes m st).inputs.length = (finalizeRes m st).times.length ∧
    (finalizeRes m st).states.length = (finalizeRes m st).times.length ∧
    (finalizeRes m st).outputs.length = (finalizeRes m st).times.length ∧
    (finalizeRes m st).event_states.length = (finalizeRes m st).times.length ∧
    (finalizeRes m st).times.getLast? = some st.t ∧
    (finalizeRes m st).states.getLast? = some st.x := by
  obtain ⟨h0, hch, hle, hl1, hl2, hl3, hl4, hlast⟩ := h
  unfold finalizeRes
  split
  · rename_i heq
    exact ⟨h0, hch, hle, hl1, hl2, hl3, hl4, heq, hlast heq⟩
  · rename_i hne
    dsimp only [pushPoint]
    refine ⟨head?_append_left h0, ?_, ?_, by simp [hl1], by simp [hl2],
      by simp [hl3], by simp [hl4],
      List.getLast?_concat _, List.getLast?_concat _⟩
    · rw [List.chain'_append]
      refine ⟨hch, List.chain'_singleton _, ?_⟩
      intro a ha b hb
      simp only [List.head?_cons, Option.mem_def, Option.some.injEq] at hb
      subst hb
      rw [Option.mem_def] at ha
      have hmem := List.mem_of_getLast?_eq_some ha
      rcases lt_or_eq_of_le (hle a hmem) with hlt | heq
      · exact hlt
      · subst heq
        exact absurd ha hne
    · intro a ha
      rcases List.mem_append.1 ha with ha | ha
      · exact hle a ha
      · simp only [List.mem_singleton] at ha
        subst ha
        exact le_refl _

theorem stt_ok_elim {m : Model} {fle : ℚ → PDict} {fo : PDict}
    {opts : SimOptions} {tk : Option (List String)} {res : SimResult}
    (h : simulate_to_threshold m fle fo opts tk = .ok res) :
    res = runSim m fle fo opts tk ∧ 0 < mergedDt opts ∧ 0 < mergedSaveFreq opts := by
  unfold simulate_to_threshold at h
  split_ifs at h with h1 h2 h3 h4 <;> simp at h
  exact ⟨h.symm, lt_of_not_le h3, lt_of_not_le h4⟩

theorem simFuel_big {h dt : ℚ} (hdt : 0 < dt) :
    h ≤ 0 + (simFuel h dt : ℚ) * dt := by
  have h1 : h / dt ≤ ((simFuel h dt : ℕ) : ℚ) := by
    calc h / dt ≤ (Int.ceil (h / dt) : ℚ) := Int.le_ceil _
    _ ≤ (((Int.ceil (h / dt)).toNat : ℤ) : ℚ) := by
        exact_mod_cast Int.self_le_toNat _
    _ ≤ ((simFuel h dt : ℕ) : ℚ) := by
        simp only [simFuel]
        push_cast
        linarith
  have := (div_le_iff₀ hdt).1 h1
  linarith

theorem initState_inv (m : Model) (fle : ℚ → PDict) (fo : PDict)
    (opts : SimOptions) : Inv (initState m fle fo opts) := by
  dsimp only [initState, Inv]
  refine ⟨rfl, List.chain'_singleton _, ?_, rfl, rfl, rfl, rfl, fun _ => rfl⟩
  intro a ha
  simp only [List.mem_singleton] at ha
  subst ha
  exact le_refl _

/-! ### Claim theorems -/

/-- **C2**: for every run of `simulate_to_threshold` that returns (so with
valid `dt > 0` and `save_freq > 0`) under a positive horizon, the five
returned sequences have equal length; the timestamp sequence starts at `0`
and is strictly increasing; its last element is `≥` every other element and
`≤ horizon + dt`; and the final simulation time appears exactly once (no
duplicate final entry when the loop exits exactly on a save instant). -/
theorem c2_history_invariants (m : Model) (fle : ℚ → PDict) (fo : PDict)
    (opts : SimOptions) (tk : Option (List String)) (res : SimResult)
    (hh : 0 < mergedHorizon opts)
    (hok : simulate_to_threshold m fle fo opts tk = .ok res) :
    res.inputs.length = res.times.length ∧
    res.states.length = res.times.length ∧
    res.outputs.length = res.times.length ∧
    res.event_states.length = res.times.length ∧
    res.times.head? = some 0 ∧
    List.Chain' (· < ·) res.times ∧
    ∃ L, res.times.getLast? = some L ∧ (∀ a ∈ res.times, a ≤ L) ∧
      L ≤ mergedHorizon opts + mergedDt opts ∧ res.times.count L = 1 := by
  obtain ⟨hres, hdt, hsf⟩ := stt_ok_elim hok
  subst hres
  set c := mkCtx m fle opts tk with hc
  have hcdt : 0 < c.dt := hdt
  set stf := simLoop c (simFuel c.horizon c.dt) (initState m fle fo opts) with hstf
  have hInvF : Inv stf := simLoop_inv c hcdt _ _ (initState_inv m fle fo opts)
  have hTle : stf.t ≤ c.horizon + c.dt := by
    apply simLoop_t_le c hcdt
    show (0 : ℚ) ≤ c.horizon + c.dt
    have hch : c.horizon = mergedHorizon opts := rfl
    have hcd : c.dt = mergedDt opts := rfl
    rw [hch, hcd]
    linarith
  have hrun : runSim m fle fo opts tk = finalizeRes m stf := rfl
  rw [hrun]
  obtain ⟨p0, pch, ple, p1, p2, p3, p4, plast, _⟩ := finalizeRes_props m stf hInvF
  refine ⟨p1, p2, p3, p4, p0, pch, stf.t, plast, ple, hTle, ?_⟩
  have hpw : List.Pairwise (· < ·) (finalizeRes m stf).times :=
    List.chain'_iff_pairwise.1 pch
  have hnd : (finalizeRes m stf).times.Nodup :=
    hpw.imp (fun hab => ne_of_lt hab)
  exact List.count_eq_one_of_mem hnd (List.mem_of_getLast?_eq_some plast)

attribute [local semireducible] Rat.add Rat.mul Rat.sub Rat.inv in
/-- **C2** witness: the invariants instantiated on a concrete run of the
trivial model over horizon `3` with `dt = save_freq = 1` (a run whose loop
exits exactly on a save instant, so the no-duplicate case is exercised). -/
theorem c2_history_invariants_witness :
    (0 < mergedHorizon c2wOptions ∧
      simulate_to_threshold mTriv mTrivLoad mTrivFirstOutput c2wOptions none =
        .ok c2wResult) ∧
    (c2wResult.inputs.length = c2wResult.times.length ∧
    c2wResult.states.length = c2wResult.times.length ∧
    c2wResult.outputs.length = c2wResult.times.length ∧
    c2wResult.event_states.length = c2wResult.times.length ∧
    c2wResult.times.head? = some 0 ∧
    List.Chain' (· < ·) c2wResult.times ∧
    ∃ L, c2wResult.times.getLast? = some L ∧ (∀ a ∈ c2wResult.times, a ≤ L) ∧
      L ≤ mergedHorizon c2wOptions + mergedDt c2wOptions ∧
      c2wResult.times.count L = 1) :=
  ⟨⟨by decide, by decide⟩,
   c2_history_invariants mTriv mTrivLoad mTrivFirstOutput c2wOptions none c2wResult
     (by decide) (by decide)⟩

attribute [local semireducible] Rat.add Rat.mul Rat.sub Rat.inv in
/-- **C1** counterexample: in the spec's concrete scenario the saved
timestamps are NOT `[0, 5, 10, 15, 20]` — at `t = 20` the event state is
exactly `0`, which the default threshold (`event_state < 0`) does not count
as met, so the loop takes one more step. -/
theorem c1_counterexample :
    okTimes (simulate_to_threshold c1Model c1Load c1FirstOutput c1Options none) ≠
      some [0, 5, 10, 15, 20] ∧
    okLastTime (simulate_to_threshold c1Model c1Load c1FirstOutput c1Options none) ≠
      some 20 := by
  constructor <;> decide

attribute [local semireducible] Rat.add Rat.mul Rat.sub Rat.inv in
/-- **C1** (amended): the scenario run terminates at `t = 21` (the first
step with strictly negative event state) and the saved timestamps are
exactly `[0, 5, 10, 15, 20, 21]` — the four periodic saves plus the first
point and the appended final point. -/
theorem c1_scenario :
    okTimes (simulate_to_threshold c1Model c1Load c1FirstOutput c1Options none) =
      some [0, 5, 10, 15, 20, 21] ∧
    okLastTime (simulate_to_threshold c1Model c1Load c1FirstOutput c1Options none) =
      some 21 := by
  constructor <;> decide

attribute [local semireducible] Rat.add Rat.mul Rat.sub Rat.inv in
/-- **C3**: the per-step termination predicate is `any` over the named
events when `threshold_keys` is given (non-empty) and `any` over all
declared events otherwise; concretely, with events `A` (trips at `t = 6`)
and `B` (trips at `t = 3`), `threshold_keys = ['A']` does not stop the run
at `t = 3` where only `B` is true (it runs to `t = 6`), while the unfiltered
run stops at `t = 3`. -/
theorem c3_threshold_keys_filtering :
    (∀ tm : List (String × Bool), checkThresholds none tm = tm.any (fun p => p.2)) ∧
    (∀ (k : String) (ks : List String) (tm : List (String × Bool)),
      checkThresholds (some (k :: ks)) tm =
        (k :: ks).any (fun key => (tm.lookup key).getD false)) ∧
    okLastTime (simulate_to_threshold c3Model c3Load c3FirstOutput c3Options
      (some ["A"])) = some 6 ∧
    okLastTime (simulate_to_threshold c3Model c3Load c3FirstOutput c3Options
      none) = some 3 ∧
    c3Model.threshold_met 3 [("s1", 0)] = [("A", false), ("B", true)] :=
  ⟨fun _ => rfl, fun _ _ _ => rfl, by decide, by decide, by decide⟩

/-- **C5**: the default `threshold_met` maps each event key of
`event_state(t, x)` to exactly the boolean `event_state(t, x)[k] < 0`;
in particular an event whose event state is exactly `0` is not met. -/
theorem c5_default_threshold_met (es : ℚ → PDict → PDict) (t : ℚ) (x : PDict)
    (k : String) :
    (defaultThresholdMet es t x).lookup k =
      ((es t x).lookup k).map (fun v => decide (v < 0)) ∧
    ((es t x).lookup k = some 0 →
      (defaultThresholdMet es t x).lookup k = some false) := by
  have hmain : ∀ (l : PDict),
      (l.map (fun p => (p.1, decide (p.2 < 0)))).lookup k =
        (l.lookup k).map (fun v => decide (v < 0)) := by
    intro l
    induction l with
    | nil => rfl
    | cons hd tl ih =>
        rcases hd with ⟨a, b⟩
        by_cases hk : k = a
        · subst hk
          simp [List.lookup]
        · simp only [List.map_cons, List.lookup]
          rw [beq_false_of_ne hk, ih]
  refine ⟨hmain (es t x), fun h0 => ?_⟩
  have : (defaultThresholdMet es t x).lookup k =
      ((es t x).lookup k).map (fun v => decide (v < 0)) := hmain (es t x)
  rw [this, h0]
  simp

/-- **C5** witness: an event state of exactly `0` yields `False` from the
default threshold equation. -/
theorem c5_default_threshold_met_witness :
    (defaultThresholdMet (fun _ _ => [("EOL", 0)]) 0 []).lookup "EOL" =
      some false :=
  (c5_default_threshold_met (fun _ _ => [("EOL", 0)]) 0 [] "EOL").2 rfl

attribute [local semireducible] Rat.add Rat.mul Rat.sub Rat.inv in
/-- **C4** counterexample: `simulate_to` does NOT set `horizon = time` for
every options mapping — the wrapper's settings are merged *before*
`config.update(options)`, so a caller-supplied `horizon` (or
`threshold_eqn`) overrides them: with `time = 10` and options
`{'horizon': 2}` the built config has horizon `2` and the run ends at
`t = 2`, not at `t = 10`. -/
theorem c4_counterexample :
    (simulate_to_options 10 { horizon := some 2 }).horizon ≠ some 10 ∧
    okLastTime (simulate_to mTriv 10 mTrivLoad mTrivFirstOutput
      { horizon := some 2 }) = some 2 := by
  constructor <;> decide

/-- **C4** (amended): for every `time > 0` and every options mapping that
does not itself carry a `horizon` or `threshold_eqn` key, `simulate_to`
sets `horizon = time`, installs the always-false threshold equation
`lambda t,x: {'a': False}`, and every returned run reaches the time
horizon: its final timestamp is `≥ time`, so the run is governed purely by
the time horizon and is never terminated by model-declared events.
(The unrestricted claim fails: the wrapper's settings are applied before
`config.update(options)`, so caller-supplied `horizon`/`threshold_eqn`
keys override them.) -/
theorem c4_simulate_to_horizon (m : Model) (fle : ℚ → PDict) (fo : PDict)
    (time : ℚ) (opts : SimOptions)
    (hth : opts.threshold_eqn = none) (hhor : opts.horizon = none) :
    (simulate_to_options time opts).horizon = some time ∧
    (simulate_to_options time opts).threshold_eqn =
      some (fun _ _ => [("a", false)]) ∧
    ∀ res, simulate_to m time fle fo opts = .ok res →
      ∃ L, res.times.getLast? = some L ∧ time ≤ L := by
  refine ⟨by simp [simulate_to_options, hhor], by simp [simulate_to_options, hth], ?_⟩
  intro res hok
  unfold simulate_to at hok
  split_ifs at hok with h1 h2 h3 <;> try simp at hok
  obtain ⟨hres, hdt, hsf⟩ := stt_ok_elim hok
  clear h1 h2 h3
  subst hres
  set config := simulate_to_options time opts with hconfig
  set c := mkCtx m fle config none with hc
  have hcdt : 0 < c.dt := hdt
  have hchor : c.horizon = time := by
    show mergedHorizon config = time
    rw [hconfig]
    simp [simulate_to_options, mergedHorizon, hhor]
  have heqn : c.threshold_met_eqn = fun _ _ => [("a", false)] := by
    show config.threshold_eqn.getD m.threshold_met = _
    rw [hconfig]
    simp [simulate_to_options, hth]
  have H : ∀ t x, c.check_thresholds (c.threshold_met_eqn t x) = false := by
    intro t x
    rw [heqn]
    rfl
  set st0 := initState m fle fo config with hst0
  set stf := simLoop c (simFuel c.horizon c.dt) st0 with hstf
  have hInvF : Inv stf := simLoop_inv c hcdt _ _ (initState_inv m fle fo config)
  have htm : stf.threshold_met = false := simLoop_tm_false c H _ _ rfl
  have hfuel : c.horizon ≤ st0.t + (simFuel c.horizon c.dt : ℚ) * c.dt := by
    have h0 : st0.t = 0 := rfl
    rw [h0]
    exact simFuel_big hcdt
  rcases simLoop_exit c (simFuel c.horizon c.dt) st0 hfuel with hcase | hcase
  · rw [← hstf, htm] at hcase
    exact absurd hcase (by simp)
  · rw [← hstf] at hcase
    obtain ⟨_, _, _, _, _, _, _, plast, _⟩ := finalizeRes_props m stf hInvF
    exact ⟨stf.t, plast, by rw [← hchor]; exact hcase⟩

attribute [local semireducible] Rat.add Rat.mul Rat.sub Rat.inv in
/-- **C4** witness: `simulate_to` of the trivial model over `time = 3` with
`dt = 1` (no caller horizon or threshold override) reaches the horizon:
its final timestamp is `≥ 3`. -/
theorem c4_simulate_to_horizon_witness :
    ∃ L, c4wResult.times.getLast? = some L ∧ (3 : ℚ) ≤ L :=
  (c4_simulate_to_horizon mTriv mTrivLoad mTrivFirstOutput 3 { dt := some 1 }
    rfl rfl).2.2 c4wResult (by decide)

/-- **C6**: for every model (`next_state` is a pure function here, so the
deterministic-no-noise hypothesis of the claim is inherent to the
embedding), every `T > 0` and merged `dt > 0`, with a valid first output
and no caller-supplied threshold equation, horizon, or starting state, the
state at the final saved point of `simulate_to(T, ...)` equals `⌈T/dt⌉`
explicit chained calls of `next_state` from the `initialize` output, with
the inputs drawn from the same loading function. -/
theorem c6_final_state_iteration (m : Model) (fle : ℚ → PDict) (fo : PDict)
    (T : ℚ) (opts : SimOptions)
    (hfo : (m.outputs.all fun key => (fo.lookup key).isSome) = true)
    (hT : 0 < T) (hdt : 0 < mergedDt opts) (hsf : 0 < mergedSaveFreq opts)
    (hth : opts.threshold_eqn = none) (hhor : opts.horizon = none)
    (hx : opts.x = none) :
    okLastState (simulate_to m T fle fo opts) =
      some (nextIter m fle (mergedDt opts) (Int.ceil (T / mergedDt opts)).toNat
        0 (m.initialize_eqn (fle 0) fo)) := by
  set config := simulate_to_options T opts with hconfig
  have hdt' : mergedDt config = mergedDt opts := rfl
  have hsf' : mergedSaveFreq config = mergedSaveFreq opts := rfl
  have hdtc : 0 < mergedDt config := by rw [hdt']; exact hdt
  have hsfc : 0 < mergedSaveFreq config := by rw [hsf']; exact hsf
  have hrun : simulate_to m T fle fo opts = .ok (runSim m fle fo config none) := by
    unfold simulate_to simulate_to_threshold
    rw [if_neg (not_le.2 hT)]
    rw [if_neg (not_le.2 hdtc), if_neg (not_le.2 hsfc),
      if_neg (not_not_intro hfo), if_neg (by simp [listTruthy]),
      if_neg (not_le.2 hdtc), if_neg (not_le.2 hsfc)]
  rw [hrun]
  show (runSim m fle fo config none).states.getLast? = _
  set c := mkCtx m fle config none with hc
  have hcdt : 0 < c.dt := hdtc
  have hchor : c.horizon = T := by
    show mergedHorizon config = T
    rw [hconfig]
    simp [simulate_to_options, mergedHorizon, hhor]
  have heqn : c.threshold_met_eqn = fun _ _ => [("a", false)] := by
    show config.threshold_eqn.getD m.threshold_met = _
    rw [hconfig]
    simp [simulate_to_options, hth]
  have H : ∀ t x, c.check_thresholds (c.threshold_met_eqn t x) = false := by
    intro t x
    rw [heqn]
    rfl
  set st0 := initState m fle fo config with hst0
  have h0t : st0.t = 0 := rfl
  have h0x : st0.x = m.initialize_eqn (fle 0) fo := by
    show config.x.getD (m.initialize_eqn (fle 0) fo) = _
    rw [hconfig]
    simp [simulate_to_options, hx]
  have hfuel : c.horizon ≤ st0.t + (simFuel c.horizon c.dt : ℚ) * c.dt := by
    rw [h0t]
    exact simFuel_big hcdt
  have hloop := simLoop_eq_iterate c hcdt H (simFuel c.horizon c.dt) st0 rfl hfuel
  have hrs : runSim m fle fo config none =
      finalizeRes m (simLoop c (simFuel c.horizon c.dt) st0) := rfl
  rw [hrs, hloop]
  have hInvIter : Inv ((simStep c)^[(Int.ceil ((c.horizon - st0.t) / c.dt)).toNat] st0) := by
    rw [← hloop]
    exact simLoop_inv c hcdt _ _ (initState_inv m fle fo config)
  obtain ⟨_, _, _, _, _, _, _, _, pstate⟩ := finalizeRes_props m _ hInvIter
  rw [pstate]
  have hiter := simStep_iterate c ((Int.ceil ((c.horizon - st0.t) / c.dt)).toNat) st0
  have hK : (Int.ceil ((c.horizon - st0.t) / c.dt)).toNat =
      (Int.ceil (T / mergedDt opts)).toNat := by
    rw [h0t, hchor]
    have hcd : c.dt = mergedDt opts := rfl
    rw [hcd, sub_zero]
  rw [hiter.2, hK, h0t, h0x]
  rfl

attribute [local semireducible] Rat.add Rat.mul Rat.sub Rat.inv in
/-- **C6** witness: the linear model under `simulate_to(3, ...)` with
`dt = 2`: the final saved state equals two chained `next_state` calls
(`⌈3/2⌉ = 2`) from the `initialize` output. -/
theorem c6_final_state_iteration_witness :
    okLastState (simulate_to c1Model 3 c1Load c1FirstOutput
      { dt := some 2, save_freq := some 1 }) =
      some (nextIter c1Model c1Load
        (mergedDt { dt := some 2, save_freq := some 1 })
        (Int.ceil ((3 : ℚ) / mergedDt { dt := some 2, save_freq := some 1 })).toNat
        0 (c1Model.initialize_eqn (c1Load 0) c1FirstOutput)) :=
  c6_final_state_iteration c1Model c1Load c1FirstOutput 3
    { dt := some 2, save_freq := some 1 }
    rfl (by decide) (by decide) (by decide) rfl rfl rfl

/-- **C7**: a model built by the dynamic factory from `f_init`, `f_next`,
`f_out` and key lists produces exactly the same simulation output from
`simulate_to_threshold` as a statically declared subclass wrapping the same
three functions, for every loading function, first output, configuration
and threshold-key selection. -/
theorem c7_factory_equivalence (ins sts outs : List String)
    (f_init : PDict → PDict → PDict)
    (f_next : ℚ → PDict → PDict → ℚ → PDict)
    (f_out : ℚ → PDict → PDict) (config : Params) (M : Model)
    (hgen : generate_model
      { inputs := some ins, states := some sts, outputs := some outs }
      f_init f_next f_out none none config = .ok M) :
    ∀ (fle : ℚ → PDict) (fo : PDict) (opts : SimOptions)
      (tk : Option (List String)),
      simulate_to_threshold M fle fo opts tk =
        simulate_to_threshold (staticModel ins sts outs f_init f_next f_out)
          fle fo opts tk := by
  intro fle fo opts tk
  unfold generate_model at hgen
  rw [if_neg (by simp), if_neg (by simp), if_neg (by simp)] at hgen
  rcases hmi : model_init
      { inputs := some ins, states := some sts, outputs := some outs }
      [] config with e | p
  · rw [hmi] at hgen
    simp at hgen
  · rw [hmi] at hgen
    dsimp only at hgen
    injection hgen with hgen
    subst hgen
    rfl

/-- **C7** witness: the factory applied to concrete equations succeeds and
yields the static model, so the two simulation calls coincide. -/
theorem c7_factory_equivalence_witness :
    simulate_to_threshold
      (staticModel ["u1"] ["s1"] ["z1"] (fun _ _ => [("s1", 0)])
        (fun _ x _ _ => x) (fun _ _ => [("z1", 0)]))
      mTrivLoad mTrivFirstOutput c2wOptions none =
    simulate_to_threshold
      (staticModel ["u1"] ["s1"] ["z1"] (fun _ _ => [("s1", 0)])
        (fun _ x _ _ => x) (fun _ _ => [("z1", 0)]))
      mTrivLoad mTrivFirstOutput c2wOptions none :=
  c7_factory_equivalence ["u1"] ["s1"] ["z1"]
    (fun _ _ => [("s1", 0)]) (fun _ x _ _ => x) (fun _ _ => [("z1", 0)])
    [("process_noise", PVal.num 1)]
    (staticModel ["u1"] ["s1"] ["z1"] (fun _ _ => [("s1", 0)])
      (fun _ x _ _ => x) (fun _ _ => [("z1", 0)]))
    rfl mTrivLoad mTrivFirstOutput c2wOptions none

/-- **C8** is violated by the code (class-attribute aliasing):
`parameters = {}` is a class attribute of `PrognosticsModel` mutated in
place by `__init__`, so every instance aliases the same dict and
constructing a second instance changes the first instance's `parameters`.
Concretely: constructing `m1` with options `{'process_noise': 1}` leaves
the shared dict at `c8P1`; then constructing `m2` with options `{'a': 5}`
moves it to `c8P2 ≠ c8P1`, so `m1.parameters` no longer holds what `m1`'s
own construction established. -/
theorem c8_shared_parameters_mutation :
    model_init c8Attrs [] [("process_noise", PVal.num 1)] = .ok c8P1 ∧
    model_init c8Attrs c8P1 [("a", PVal.num 5)] = .ok c8P2 ∧
    c8P2 ≠ c8P1 :=
  ⟨by decide, by decide, by decide⟩

theorem stt_error_iff (m : Model) (fle : ℚ → PDict) (fo : PDict)
    (opts : SimOptions) (tk : Option (List String)) :
    (∃ e, simulate_to_threshold m fle fo opts tk = .error e) ↔
      (¬ (m.outputs.all fun key => (fo.lookup key).isSome) ∨
       (listTruthy tk ∧ ¬ ((tk.getD []).all fun key => m.events.contains key)) ∨
       mergedDt opts ≤ 0 ∨ mergedSaveFreq opts ≤ 0) := by
  unfold simulate_to_threshold
  by_cases h1 : (m.outputs.all fun key => (fo.lookup key).isSome) = true
  · rw [if_neg (not_not_intro h1)]
    by_cases h2 : listTruthy tk = true ∧
        ¬ ((tk.getD []).all fun key => m.events.contains key) = true
    · rw [if_pos h2]
      exact ⟨fun _ => Or.inr (Or.inl h2), fun _ => ⟨_, rfl⟩⟩
    · rw [if_neg h2]
      by_cases h3 : mergedDt opts ≤ 0
      · rw [if_pos h3]
        exact ⟨fun _ => Or.inr (Or.inr (Or.inl h3)), fun _ => ⟨_, rfl⟩⟩
      · rw [if_neg h3]
        by_cases h4 : mergedSaveFreq opts ≤ 0
        · rw [if_pos h4]
          exact ⟨fun _ => Or.inr (Or.inr (Or.inr h4)), fun _ => ⟨_, rfl⟩⟩
        · rw [if_neg h4]
          constructor
          · rintro ⟨e, he⟩
            exact absurd he (by simp)
          · rintro (h | h | h | h)
            · exact absurd h1 h
            · exact absurd h h2
            · exact absurd h h3
            · exact absurd h h4
  · rw [if_pos h1]
    exact ⟨fun _ => Or.inl h1, fun _ => ⟨_, rfl⟩⟩

theorem stt_error_indep {m : Model} {fle : ℚ → PDict} {fo : PDict}
    {opts : SimOptions} {tk : Option (List String)} {e : SimError}
    (he : simulate_to_threshold m fle fo opts tk = .error e)
    (m2 : Model) (fle2 : ℚ → PDict)
    (ho : m2.outputs = m.outputs) (hev : m2.events = m.events) :
    simulate_to_threshold m2 fle2 fo opts tk = .error e := by
  unfold simulate_to_threshold at he ⊢
  rw [ho, hev]
  split_ifs at he ⊢ with h1 h2 h3 h4
  all_goals first | exact he | simp at he

/-- **C9**: `simulate_to_threshold` raises an input-validation error exactly
when `first_output` misses a required output key, a truthy `threshold_keys`
names an undeclared event, or the merged `dt`/`save_freq` is non-positive
(non-callable loading functions and non-numeric `dt`/`save_freq` cannot
exist in the typed embedding); `simulate_to` raises exactly when
additionally `time ≤ 0`; and every such error is determined before any
model equation or the loading function runs: an erroring call returns the
same error for every model with the same declared `outputs` and `events`
and for every loading function, so no partial simulation runs. -/
theorem c9_validation (m : Model) (fle : ℚ → PDict) (fo : PDict)
    (opts : SimOptions) (tk : Option (List String)) (time : ℚ) :
    ((∃ e, simulate_to_threshold m fle fo opts tk = .error e) ↔
      (¬ (m.outputs.all fun key => (fo.lookup key).isSome) ∨
       (listTruthy tk ∧ ¬ ((tk.getD []).all fun key => m.events.contains key)) ∨
       mergedDt opts ≤ 0 ∨ mergedSaveFreq opts ≤ 0)) ∧
    ((∃ e, simulate_to m time fle fo opts = .error e) ↔
      (time ≤ 0 ∨
       ¬ (m.outputs.all fun key => (fo.lookup key).isSome) ∨
       mergedDt opts ≤ 0 ∨ mergedSaveFreq opts ≤ 0)) ∧
    (∀ e, simulate_to_threshold m fle fo opts tk = .error e →
      ∀ (m2 : Model) (fle2 : ℚ → PDict),
        m2.outputs = m.outputs → m2.events = m.events →
        simulate_to_threshold m2 fle2 fo opts tk = .error e) ∧
    (∀ e, simulate_to m time fle fo opts = .error e →
      ∀ (m2 : Model) (fle2 : ℚ → PDict),
        m2.outputs = m.outputs → m2.events = m.events →
        simulate_to m2 time fle2 fo opts = .error e) := by
  refine ⟨stt_error_iff m fle fo opts tk, ?_, ?_, ?_⟩
  · unfold simulate_to
    by_cases h1 : time ≤ 0
    · rw [if_pos h1]
      exact ⟨fun _ => Or.inl h1, fun _ => ⟨_, rfl⟩⟩
    · rw [if_neg h1]
      by_cases h2 : mergedDt (simulate_to_options time opts) ≤ 0
      · rw [if_pos h2]
        exact ⟨fun _ => Or.inr (Or.inr (Or.inl h2)), fun _ => ⟨_, rfl⟩⟩
      · rw [if_neg h2]
        by_cases h3 : mergedSaveFreq (simulate_to_options time opts) ≤ 0
        · rw [if_pos h3]
          exact ⟨fun _ => Or.inr (Or.inr (Or.inr h3)), fun _ => ⟨_, rfl⟩⟩
        · rw [if_neg h3]
          rw [stt_error_iff]
          constructor
          · rintro (h | h | h | h)
            · exact Or.inr (Or.inl h)
            · simp [listTruthy] at h
            · exact absurd h h2
            · exact absurd h h3
          · rintro (h | h | h | h)
            · exact absurd h h1
            · exact Or.inl h
            · exact absurd h h2
            · exact absurd h h3
  · intro e he m2 fle2 ho hev
    exact stt_error_indep he m2 fle2 ho hev
  · intro e he m2 fle2 ho hev
    unfold simulate_to at he ⊢
    split_ifs at he ⊢ with h1 h2 h3
    all_goals first | exact he | exact stt_error_indep he m2 fle2 ho hev

/-- **C9** witness: an erroring call (first output missing the required
key `z1`) returns the same error for a different loading function,
without the model ever being exercised. -/
theorem c9_validation_witness :
    simulate_to_threshold mTriv c1Load [] {} none =
      .error SimError.missingOutputKeys :=
  (c9_validation mTriv mTrivLoad [] {} none 1).2.2.1
    SimError.missingOutputKeys (by decide) mTriv c1Load rfl rfl

theorem lookup_setItem (d : Params) (k : String) (v : PVal) :
    (dictSetItem d k v).lookup k = some v := by
  unfold dictSetItem
  split
  · rename_i hsome
    induction d with
    | nil => simp at hsome
    | cons hd tl ih =>
        rcases hd with ⟨a, b⟩
        rw [List.map_cons]
        by_cases hk : a = k
        · subst hk
          have he : (if ((a, b) : String × PVal).1 = a then (a, v) else (a, b))
              = (a, v) := by simp
          rw [he]
          simp [List.lookup]
        · have he : (if ((a, b) : String × PVal).1 = k then (k, v) else (a, b))
              = (a, b) := by simp [hk]
          rw [he]
          have hbeq : (k == a) = false := beq_false_of_ne (Ne.symm hk)
          simp only [List.lookup, hbeq] at hsome ⊢
          exact ih hsome
  · rename_i hnone
    induction d with
    | nil => simp [List.lookup]
    | cons hd tl ih =>
        rcases hd with ⟨a, b⟩
        by_cases hk : a = k
        · subst hk
          simp [List.lookup] at hnone
        · have hbeq : (k == a) = false := beq_false_of_ne (Ne.symm hk)
          simp only [List.cons_append, List.lookup, hbeq] at hnone ⊢
          exact ih hnone

/-- **C10**: model construction fails exactly when the merged parameters
lack a `process_noise` entry or the `inputs`/`states`/`outputs` class
attribute is missing or empty; and a scalar `process_noise` is broadcast
into a uniform per-state mapping assigning that scalar to every state key. -/
theorem c10_ctor_validation (attrs : ClassAttrs) (shared options : Params) :
    ((∃ e, model_init attrs shared options = .error e) ↔
      ((dictUpdate shared options).lookup "process_noise" = none ∨
       attrs.inputs = none ∨ attrs.inputs = some [] ∨
       attrs.states = none ∨ attrs.states = some [] ∨
       attrs.outputs = none ∨ attrs.outputs = some [])) ∧
    (∀ q : ℚ,
      (dictUpdate shared options).lookup "process_noise" = some (PVal.num q) →
      ∀ p, model_init attrs shared options = .ok p →
        p.lookup "process_noise" =
          some (PVal.dmap ((attrs.states.getD []).map (fun key => (key, q))))) := by
  constructor
  · unfold model_init
    split_ifs with h1 h2 h3 h4 h5 h6 h7
    · exact ⟨fun _ => Or.inl (Option.isNone_iff_eq_none.1 h1), fun _ => ⟨_, rfl⟩⟩
    · exact ⟨fun _ => Or.inr (Or.inl (Option.isNone_iff_eq_none.1 h2)),
        fun _ => ⟨_, rfl⟩⟩
    · refine ⟨fun _ => Or.inr (Or.inr (Or.inl ?_)), fun _ => ⟨_, rfl⟩⟩
      have hs : ∃ l, attrs.inputs = some l := by
        rcases hi : attrs.inputs with _ | l
        · exact absurd (by rw [hi]; rfl) h2
        · exact ⟨l, rfl⟩
      obtain ⟨l, hl⟩ := hs
      rw [hl] at h3 ⊢
      simp only [Option.getD_some] at h3
      rw [List.length_eq_zero.1 (Nat.le_zero.1 h3)]
    · exact ⟨fun _ => Or.inr (Or.inr (Or.inr (Or.inl
        (Option.isNone_iff_eq_none.1 h4)))), fun _ => ⟨_, rfl⟩⟩
    · refine ⟨fun _ => Or.inr (Or.inr (Or.inr (Or.inr (Or.inl ?_)))),
        fun _ => ⟨_, rfl⟩⟩
      have hs : ∃ l, attrs.states = some l := by
        rcases hx : attrs.states with _ | l
        · exact absurd (by rw [hx]; rfl) h4
        · exact ⟨l, rfl⟩
      obtain ⟨l, hl⟩ := hs
      rw [hl] at h5 ⊢
      simp only [Option.getD_some] at h5
      rw [List.length_eq_zero.1 (Nat.le_zero.1 h5)]
    · exact ⟨fun _ => Or.inr (Or.inr (Or.inr (Or.inr (Or.inr (Or.inl
        (Option.isNone_iff_eq_none.1 h6)))))), fun _ => ⟨_, rfl⟩⟩
    · refine ⟨fun _ => Or.inr (Or.inr (Or.inr (Or.inr (Or.inr (Or.inr ?_))))),
        fun _ => ⟨_, rfl⟩⟩
      have hs : ∃ l, attrs.outputs = some l := by
        rcases hx : attrs.outputs with _ | l
        · exact absurd (by rw [hx]; rfl) h6
        · exact ⟨l, rfl⟩
      obtain ⟨l, hl⟩ := hs
      rw [hl] at h7 ⊢
      simp only [Option.getD_some] at h7
      rw [List.length_eq_zero.1 (Nat.le_zero.1 h7)]
    · constructor
      · rintro ⟨e, he⟩
        rcases hl : (dictUpdate shared options).lookup "process_noise"
          with _ | ⟨q | dm⟩ <;> rw [hl] at he <;> simp at he
      · rintro (h | h | h | h | h | h | h)
        · exact (h1 (by rw [h]; rfl)).elim
        · exact (h2 (by rw [h]; rfl)).elim
        · exact (h3 (by rw [h]; simp)).elim
        · exact (h4 (by rw [h]; rfl)).elim
        · exact (h5 (by rw [h]; simp)).elim
        · exact (h6 (by rw [h]; rfl)).elim
        · exact (h7 (by rw [h]; simp)).elim
  · intro q hq p hp
    unfold model_init at hp
    split_ifs at hp with h1 h2 h3 h4 h5 h6 h7 <;> try simp at hp
    rw [hq] at hp
    dsimp only at hp
    injection hp with hp
    rw [← hp]
    exact lookup_setItem _ _ _

/-- **C10** witness: a scalar `process_noise` of `1` with state key set
`['s1']` is broadcast to the mapping `{'s1': 1}`. -/
theorem c10_ctor_validation_witness :
    c8P1.lookup "process_noise" =
      some (PVal.dmap ((c8Attrs.states.getD []).map (fun key => (key, (1 : ℚ))))) :=
  (c10_ctor_validation c8Attrs [] [("process_noise", PVal.num 1)]).2
    1 (by decide) c8P1 (by decide)

end ProgModels
